import Mathlib

/-!
Verification of the gossip table-access layer
(`gossip-lib/src/storage/table.rs`).

The layer is a trait `Table` generic over a `Record` type, providing CRUD,
scan and bulk-modify operations over an ordered byte key-value store (heed /
LMDB), with an optional caller-supplied write (or read) transaction.

Shallow embedding:
* byte strings are `List Nat`;
* a database (one named LMDB sub-database, viewed through a transaction) is
  an ordered association list `Db` of `(key, value)` byte-string pairs,
  kept sorted by key so that iteration order is key order, as in LMDB;
* the `Record` trait (key extraction, serialization, deserialization,
  stabilization, default construction) becomes a structure of functions
  `TableSig`, together with the table-level `newable` flag;
* `Option<&mut RwTxn>` becomes `Option Db`: `some t` is a caller-supplied
  transaction (whose private view is `t`), `none` means the operation opens
  its own transaction from the committed store and commits it at the end.
  Each mutating operation returns `(result, new caller txn view, new
  committed store)`.  The inner closure `f` of the Rust source becomes a
  state-passing function `Db → Except Err α × Db` which returns the state
  reached even on error, because the Rust closure mutates the transaction
  in place before a possible early error return.

Underlying-engine failures (I/O, `db()` resolution, commit failure) are out
of scope per the spec and are not modelled: in the model, opening and
committing a transaction never fails.
-/

set_option autoImplicit false

deriving instance DecidableEq for Except

namespace Gossip

/-- The error kinds the table layer can produce (from `ErrorKind`):
`RecordIsNotNewable`, a value/key serialization failure, and a
deserialization failure. -/
inductive Err where
  | recordIsNotNewable
  | encodeFailed
  | decodeFailed
  deriving DecidableEq

/-- Raw byte strings, the key and value type of the underlying store. -/
abbrev Bytes := List Nat

/-- One LMDB sub-database as seen through a transaction: an ordered list of
`(key bytes, value bytes)` entries.  Insertion keeps it sorted by key, so
list order is the store's native key order (iteration order). -/
abbrev Db := List (Bytes × Bytes)

/-- Strict lexicographic order on byte strings (LMDB's default key order). -/
def bytesLt : Bytes → Bytes → Bool
  | [], [] => false
  | [], _ :: _ => true
  | _ :: _, [] => false
  | a :: as, b :: bs => if a < b then true else if b < a then false else bytesLt as bs

/-- `get` on a database: the value stored under a key, if any. -/
def dbGet : Db → Bytes → Option Bytes
  | [], _ => none
  | (k, v) :: rest, key => if key = k then some v else dbGet rest key

/-- `put` on a database: upsert, keeping the entries sorted by key. -/
def dbPut : Db → Bytes → Bytes → Db
  | [], key, val => [(key, val)]
  | (k, v) :: rest, key, val =>
    if key = k then (key, val) :: rest
    else if bytesLt key k then (key, val) :: (k, v) :: rest
    else (k, v) :: dbPut rest key val

/-- The `Record` contract (trait `Record` in `storage/types`) together with
the table-level `newable` flag (trait `Table`): key extraction, fallible
byte serialization of keys and values, fallible deserialization,
stabilization, and default construction from a key. -/
structure TableSig (Item Key : Type) where
  key : Item → Key
  keyToBytes : Key → Except Err Bytes
  toBytes : Item → Except Err Bytes
  fromBytes : Bytes → Except Err Item
  stabilize : Item → Item
  new : Key → Item
  newable : Bool

/-- The transaction-dispatch pattern shared by every mutating operation:

```
match wtxn {
    Some(txn) => f(txn),
    None => {
        let mut txn = GLOBALS.storage.get_write_txn()?;
        let result = f(&mut txn);
        txn.commit()?;
        result
    }
}
```

With `some t` the inner logic runs on the supplied transaction view `t`
and the committed store is untouched; with `none` the operation opens a
transaction seeded from the committed store, runs the inner logic, and
commits whatever state it reached — the Rust source commits
unconditionally, even when `f` returned an error. -/
def runOp {α : Type} (f : Db → Except Err α × Db) :
    Option Db → Db → Except Err α × Option Db × Db
  | some t, store => ((f t).1, some (f t).2, store)
  | none, store => ((f store).1, none, (f store).2)

/-- The transaction-dispatch pattern of the read-only operations: run the
inner logic against the supplied read transaction view if any, otherwise
against a fresh read transaction seeded from the committed store.  Read
transactions are simply dropped, so nothing is returned besides the
result. -/
def runRead {α : Type} (f : Db → Except Err α) :
    Option Db → Db → Except Err α
  | some t, _ => f t
  | none, store => f store

variable {Item Key : Type}

namespace Table

/-- `Table::write_record`: stabilize, serialize key and value, upsert. -/
def write_record (sig : TableSig Item Key) (record : Item)
    (wtxn : Option Db) (store : Db) : Except Err Unit × Option Db × Db :=
  let record := sig.stabilize record
  match sig.keyToBytes (sig.key record) with
  | .error e => (.error e, wtxn, store)
  | .ok keybytes =>
    match sig.toBytes record with
    | .error e => (.error e, wtxn, store)
    | .ok valbytes =>
      runOp (fun txn => (.ok (), dbPut txn keybytes valbytes)) wtxn store

/-- `Table::create_record_if_missing`: if not newable, fail; otherwise
insert `stabilize(new key)` when the key is absent, do nothing when it is
present. -/
def create_record_if_missing (sig : TableSig Item Key) (key : Key)
    (wtxn : Option Db) (store : Db) : Except Err Unit × Option Db × Db :=
  if !sig.newable then (.error .recordIsNotNewable, wtxn, store)
  else
    match sig.keyToBytes key with
    | .error e => (.error e, wtxn, store)
    | .ok keybytes =>
      runOp (fun txn =>
        match dbGet txn keybytes with
        | some _ => (.ok (), txn)
        | none =>
          let record := sig.stabilize (sig.new key)
          match sig.toBytes record with
          | .error e => (.error e, txn)
          | .ok valbytes => (.ok (), dbPut txn keybytes valbytes)) wtxn store

/-- `Table::has_record`: existence check by serialized key; the value is
not deserialized. -/
def has_record (sig : TableSig Item Key) (key : Key)
    (rtxn : Option Db) (store : Db) : Except Err Bool :=
  match sig.keyToBytes key with
  | .error e => .error e
  | .ok keybytes =>
    runRead (fun txn => .ok (dbGet txn keybytes).isSome) rtxn store

/-- `Table::read_record`: deserialized record or `none`; a present key
whose bytes fail to deserialize surfaces the error. -/
def read_record (sig : TableSig Item Key) (key : Key)
    (rtxn : Option Db) (store : Db) : Except Err (Option Item) :=
  match sig.keyToBytes key with
  | .error e => .error e
  | .ok keybytes =>
    runRead (fun txn =>
      match dbGet txn keybytes with
      | none => .ok none
      | some valbytes =>
        match sig.fromBytes valbytes with
        | .error e => .error e
        | .ok record => .ok (some record)) rtxn store

/-- `Table::read_or_create_record`: if not newable, fail; otherwise return
the deserialized present value, or construct, stabilize, persist and
return the default record. -/
def read_or_create_record (sig : TableSig Item Key) (key : Key)
    (wtxn : Option Db) (store : Db) : Except Err Item × Option Db × Db :=
  if !sig.newable then (.error .recordIsNotNewable, wtxn, store)
  else
    match sig.keyToBytes key with
    | .error e => (.error e, wtxn, store)
    | .ok keybytes =>
      runOp (fun txn =>
        match dbGet txn keybytes with
        | none =>
          let record := sig.stabilize (sig.new key)
          match sig.toBytes record with
          | .error e => (.error e, txn)
          | .ok valbytes => (.ok record, dbPut txn keybytes valbytes)
        | some valbytes =>
          match sig.fromBytes valbytes with
          | .error e => (.error e, txn)
          | .ok record => (.ok record, txn)) wtxn store

/-- The scan loop of `Table::filter_records`: iterate the entries in store
order, deserialize each value (any failure aborts the whole scan), keep the
records the predicate accepts, in order. -/
def scanFilter (sig : TableSig Item Key) (p : Item → Bool) :
    Db → Except Err (List Item)
  | [] => .ok []
  | (_, valbytes) :: rest =>
    match sig.fromBytes valbytes with
    | .error e => .error e
    | .ok record =>
      match scanFilter sig p rest with
      | .error e => .error e
      | .ok output => .ok (if p record then record :: output else output)

/-- `Table::filter_records`: full linear scan with a predicate. -/
def filter_records (sig : TableSig Item Key) (p : Item → Bool)
    (rtxn : Option Db) (store : Db) : Except Err (List Item) :=
  runRead (fun txn => scanFilter sig p txn) rtxn store

/-- `Table::modify_if_exists`: if the key is present, deserialize, apply
the mutation, stabilize, re-serialize and overwrite in place, returning
`true`; return `false` when absent.  No newable check. -/
def modify_if_exists (sig : TableSig Item Key) (key : Key)
    (modify : Item → Item) (wtxn : Option Db) (store : Db) :
    Except Err Bool × Option Db × Db :=
  runOp (fun txn =>
    match sig.keyToBytes key with
    | .error e => (.error e, txn)
    | .ok keybytes =>
      match dbGet txn keybytes with
      | none => (.ok false, txn)
      | some valbytes =>
        match sig.fromBytes valbytes with
        | .error e => (.error e, txn)
        | .ok record =>
          let record := sig.stabilize (modify record)
          match sig.toBytes record with
          | .error e => (.error e, txn)
          | .ok valbytes => (.ok true, dbPut txn keybytes valbytes)) wtxn store

/-- `Table::modify`: if not newable, fail; otherwise modify the present
record, or the default-constructed one when absent, stabilize and
persist. -/
def modify (sig : TableSig Item Key) (key : Key)
    (modifyFn : Item → Item) (wtxn : Option Db) (store : Db) :
    Except Err Unit × Option Db × Db :=
  if !sig.newable then (.error .recordIsNotNewable, wtxn, store)
  else
    runOp (fun txn =>
      match sig.keyToBytes key with
      | .error e => (.error e, txn)
      | .ok keybytes =>
        let record :=
          match dbGet txn keybytes with
          | some valbytes => sig.fromBytes valbytes
          | none => .ok (sig.new key)
        match record with
        | .error e => (.error e, txn)
        | .ok record =>
          let record := sig.stabilize (modifyFn record)
          match sig.toBytes record with
          | .error e => (.error e, txn)
          | .ok valbytes => (.ok (), dbPut txn keybytes valbytes)) wtxn store

/-- The cursor loop of `Table::filter_modify`: a single forward pass; at
every entry whose deserialized record satisfies the predicate, the mutated,
re-stabilized, re-serialized record is rewritten under the unaltered key at
the cursor position (`put_current`).  On an error the pass stops there:
the entries already rewritten stay rewritten in the transaction state,
which is returned alongside the error. -/
def scanFilterModify (sig : TableSig Item Key) (p : Item → Bool)
    (m : Item → Item) : Db → Except Err Unit × Db
  | [] => (.ok (), [])
  | (keybytes, valbytes) :: rest =>
    match sig.fromBytes valbytes with
    | .error e => (.error e, (keybytes, valbytes) :: rest)
    | .ok record =>
      if p record then
        let record := sig.stabilize (m record)
        match sig.toBytes record with
        | .error e => (.error e, (keybytes, valbytes) :: rest)
        | .ok valbytes2 =>
          let next := scanFilterModify sig p m rest
          (next.1, (keybytes, valbytes2) :: next.2)
      else
        let next := scanFilterModify sig p m rest
        (next.1, (keybytes, valbytes) :: next.2)

/-- `Table::filter_modify`: bulk in-place rewrite of all matching
records. -/
def filter_modify (sig : TableSig Item Key) (p : Item → Bool)
    (m : Item → Item) (wtxn : Option Db) (store : Db) :
    Except Err Unit × Option Db × Db :=
  runOp (scanFilterModify sig p m) wtxn store

end Table

/-! ### Basic store lemmas -/

theorem dbGet_dbPut_self (d : Db) (k v : Bytes) :
    dbGet (dbPut d k v) k = some v := by
  induction d with
  | nil => simp [dbPut, dbGet]
  | cons e rest ih =>
    obtain ⟨k', v'⟩ := e
    by_cases hk : k = k'
    · simp [dbPut, hk, dbGet]
    · by_cases hlt : bytesLt k k'
      · simp [dbPut, hk, hlt, dbGet]
      · simp [dbPut, hk, hlt, dbGet, ih]

theorem dbPut_length_of_absent (d : Db) (k v : Bytes)
    (h : dbGet d k = none) : (dbPut d k v).length = d.length + 1 := by
  induction d with
  | nil => simp [dbPut]
  | cons e rest ih =>
    obtain ⟨k', v'⟩ := e
    simp only [dbGet] at h
    by_cases hk : k = k'
    · simp [hk] at h
    · simp only [hk, if_false] at h
      by_cases hlt : bytesLt k k'
      · simp [dbPut, hk, hlt]
      · simp [dbPut, hk, hlt, ih h]

/-! ### A concrete table signature for witnesses and counterexamples

Records are natural numbers; the key of a record is the record itself;
a record `n` serializes to the singleton byte string `[n]`, and only
singleton byte strings deserialize. -/

/-- A concrete newable table signature over `Nat` records. -/
def natSig : TableSig Nat Nat where
  key := fun r => r
  keyToBytes := fun k => .ok [k]
  toBytes := fun r => .ok [r]
  fromBytes := fun bs =>
    match bs with
    | [n] => .ok n
    | _ => .error .decodeFailed
  stabilize := fun r => r
  new := fun k => k
  newable := true

/-- The same concrete signature with the newable capability turned off. -/
def natSigNoNew : TableSig Nat Nat :=
  { natSig with newable := false }

/-!
### Claim theorems
-/

/-- C1: for every table operation (`write_record`,
`create_record_if_missing`, `has_record`, `read_record`,
`read_or_create_record`, `filter_records`, `modify_if_exists`, `modify`,
`filter_modify`), when the caller supplies an open transaction the
operation runs its logic against that supplied transaction and returns
without committing it: the committed store is returned unchanged, and the
result and the new transaction view are independent of the committed
store (they are computed from the supplied transaction alone). -/
theorem supplied_txn_runs_uncommitted_uniformly :
    (∀ (Item Key : Type) (sig : TableSig Item Key) (r : Item) (t store store' : Db),
       Table.write_record sig r (some t) store
         = ((Table.write_record sig r (some t) store').1,
            (Table.write_record sig r (some t) store').2.1, store))
  ∧ (∀ (Item Key : Type) (sig : TableSig Item Key) (k : Key) (t store store' : Db),
       Table.create_record_if_missing sig k (some t) store
         = ((Table.create_record_if_missing sig k (some t) store').1,
            (Table.create_record_if_missing sig k (some t) store').2.1, store))
  ∧ (∀ (Item Key : Type) (sig : TableSig Item Key) (k : Key) (t store store' : Db),
       Table.has_record sig k (some t) store = Table.has_record sig k (some t) store')
  ∧ (∀ (Item Key : Type) (sig : TableSig Item Key) (k : Key) (t store store' : Db),
       Table.read_record sig k (some t) store = Table.read_record sig k (some t) store')
  ∧ (∀ (Item Key : Type) (sig : TableSig Item Key) (k : Key) (t store store' : Db),
       Table.read_or_create_record sig k (some t) store
         = ((Table.read_or_create_record sig k (some t) store').1,
            (Table.read_or_create_record sig k (some t) store').2.1, store))
  ∧ (∀ (Item Key : Type) (sig : TableSig Item Key) (p : Item → Bool) (t store store' : Db),
       Table.filter_records sig p (some t) store
         = Table.filter_records sig p (some t) store')
  ∧ (∀ (Item Key : Type) (sig : TableSig Item Key) (k : Key) (m : Item → Item)
       (t store store' : Db),
       Table.modify_if_exists sig k m (some t) store
         = ((Table.modify_if_exists sig k m (some t) store').1,
            (Table.modify_if_exists sig k m (some t) store').2.1, store))
  ∧ (∀ (Item Key : Type) (sig : TableSig Item Key) (k : Key) (m : Item → Item)
       (t store store' : Db),
       Table.modify sig k m (some t) store
         = ((Table.modify sig k m (some t) store').1,
            (Table.modify sig k m (some t) store').2.1, store))
  ∧ (∀ (Item Key : Type) (sig : TableSig Item Key) (p : Item → Bool) (m : Item → Item)
       (t store store' : Db),
       Table.filter_modify sig p m (some t) store
         = ((Table.filter_modify sig p m (some t) store').1,
            (Table.filter_modify sig p m (some t) store').2.1, store)) := by
  refine ⟨?_, ?_, ?_, ?_, ?_, ?_, ?_, ?_, ?_⟩
  · intro Item Key sig r t store store'
    cases hk : sig.keyToBytes (sig.key (sig.stabilize r)) <;>
      cases hv : sig.toBytes (sig.stabilize r) <;>
      simp [Table.write_record, hk, hv, runOp]
  · intro Item Key sig k t store store'
    cases hn : sig.newable
    · simp [Table.create_record_if_missing, hn]
    · cases hk : sig.keyToBytes k <;>
        simp [Table.create_record_if_missing, hn, hk, runOp]
  · intro Item Key sig k t store store'
    cases hk : sig.keyToBytes k <;> simp [Table.has_record, hk, runRead]
  · intro Item Key sig k t store store'
    cases hk : sig.keyToBytes k <;> simp [Table.read_record, hk, runRead]
  · intro Item Key sig k t store store'
    cases hn : sig.newable
    · simp [Table.read_or_create_record, hn]
    · cases hk : sig.keyToBytes k <;>
        simp [Table.read_or_create_record, hn, hk, runOp]
  · intro Item Key sig p t store store'
    rfl
  · intro Item Key sig k m t store store'
    rfl
  · intro Item Key sig k m t store store'
    cases hn : sig.newable <;> simp [Table.modify, hn, runOp]
  · intro Item Key sig p m t store store'
    rfl

/-- C2 counterexample: the claim "an error of the inner logic in
owned-transaction mode leaves the transaction uncommitted, so no partial
mutation becomes visible" is false for `filter_modify`.  The Rust source
commits the owned transaction unconditionally (`let result = f(&mut txn);
txn.commit()?; result`).  On a table whose first entry decodes and whose
second entry does not, with an all-accepting predicate, `filter_modify`
rewrites the first entry, then fails on the second — and the commit makes
the partial rewrite visible: the committed store differs from the initial
one although the operation returned an error. -/
theorem owned_txn_error_partial_mutation_cex :
    (Table.filter_modify natSig (fun _ => true) (fun r => r + 1) none
        [([0], [5]), ([1], [2, 3])]).1 = .error .decodeFailed
  ∧ (Table.filter_modify natSig (fun _ => true) (fun r => r + 1) none
        [([0], [5]), ([1], [2, 3])]).2.2 = [([0], [6]), ([1], [2, 3])]
  ∧ ([([0], [6]), ([1], [2, 3])] : Db) ≠ [([0], [5]), ([1], [2, 3])] := by
  refine ⟨rfl, rfl, by decide⟩

/-- C2 (amended): in owned-transaction mode the transaction is committed
unconditionally, even when the inner logic returned an error; for each
single-record mutating operation (`write_record`,
`create_record_if_missing`, `read_or_create_record`, `modify_if_exists`,
`modify`) every possible error occurs before the operation's single write,
so when such an operation returns an error the committed store is
unchanged and no partial mutation becomes visible.  (`filter_modify` does
not have this property; see the counterexample.) -/
theorem owned_txn_error_single_record_ops_unchanged :
    (∀ (Item Key : Type) (sig : TableSig Item Key) (r : Item) (store : Db) (e : Err),
       (Table.write_record sig r none store).1 = .error e →
       (Table.write_record sig r none store).2.2 = store)
  ∧ (∀ (Item Key : Type) (sig : TableSig Item Key) (k : Key) (store : Db) (e : Err),
       (Table.create_record_if_missing sig k none store).1 = .error e →
       (Table.create_record_if_missing sig k none store).2.2 = store)
  ∧ (∀ (Item Key : Type) (sig : TableSig Item Key) (k : Key) (store : Db) (e : Err),
       (Table.read_or_create_record sig k none store).1 = .error e →
       (Table.read_or_create_record sig k none store).2.2 = store)
  ∧ (∀ (Item Key : Type) (sig : TableSig Item Key) (k : Key) (m : Item → Item)
       (store : Db) (e : Err),
       (Table.modify_if_exists sig k m none store).1 = .error e →
       (Table.modify_if_exists sig k m none store).2.2 = store)
  ∧ (∀ (Item Key : Type) (sig : TableSig Item Key) (k : Key) (m : Item → Item)
       (store : Db) (e : Err),
       (Table.modify sig k m none store).1 = .error e →
       (Table.modify sig k m none store).2.2 = store) := by
  refine ⟨?_, ?_, ?_, ?_, ?_⟩
  · intro Item Key sig r store e
    cases hk : sig.keyToBytes (sig.key (sig.stabilize r)) <;>
      cases hv : sig.toBytes (sig.stabilize r) <;>
      simp [Table.write_record, hk, hv, runOp]
  · intro Item Key sig k store e
    cases hn : sig.newable
    · simp [Table.create_record_if_missing, hn]
    · cases hk : sig.keyToBytes k
      · simp [Table.create_record_if_missing, hn, hk]
      · rename_i kb
        cases hg : dbGet store kb
        · cases hv : sig.toBytes (sig.stabilize (sig.new k)) <;>
            simp [Table.create_record_if_missing, hn, hk, hg, hv, runOp]
        · simp [Table.create_record_if_missing, hn, hk, hg, runOp]
  · intro Item Key sig k store e
    cases hn : sig.newable
    · simp [Table.read_or_create_record, hn]
    · cases hk : sig.keyToBytes k
      · simp [Table.read_or_create_record, hn, hk]
      · rename_i kb
        cases hg : dbGet store kb
        · cases hv : sig.toBytes (sig.stabilize (sig.new k)) <;>
            simp [Table.read_or_create_record, hn, hk, hg, hv, runOp]
        · rename_i vb
          cases hf : sig.fromBytes vb <;>
            simp [Table.read_or_create_record, hn, hk, hg, hf, runOp]
  · intro Item Key sig k m store e
    cases hk : sig.keyToBytes k
    · simp [Table.modify_if_exists, hk, runOp]
    · rename_i kb
      cases hg : dbGet store kb
      · simp [Table.modify_if_exists, hk, hg, runOp]
      · rename_i vb
        cases hf : sig.fromBytes vb
        · simp [Table.modify_if_exists, hk, hg, hf, runOp]
        · rename_i rec
          cases hv : sig.toBytes (sig.stabilize (m rec)) <;>
            simp [Table.modify_if_exists, hk, hg, hf, hv, runOp]
  · intro Item Key sig k m store e
    cases hn : sig.newable
    · simp [Table.modify, hn]
    · cases hk : sig.keyToBytes k
      · simp [Table.modify, hn, hk, runOp]
      · rename_i kb
        cases hg : dbGet store kb
        · cases hv : sig.toBytes (sig.stabilize (m (sig.new k))) <;>
            simp [Table.modify, hn, hk, hg, hv, runOp]
        · rename_i vb
          cases hf : sig.fromBytes vb
          · simp [Table.modify, hn, hk, hg, hf, runOp]
          · rename_i rec
            cases hv : sig.toBytes (sig.stabilize (m rec)) <;>
              simp [Table.modify, hn, hk, hg, hf, hv, runOp]

/-- Witness for the amended C2 theorem: `modify` on a non-newable table
returns the not-newable error and the committed store (here, empty) is
unchanged. -/
theorem owned_txn_error_single_record_ops_unchanged_witness :
    (Table.modify natSigNoNew 0 (fun r => r) none []).2.2 = [] :=
  owned_txn_error_single_record_ops_unchanged.2.2.2.2 Nat Nat natSigNoNew 0
    (fun r => r) [] .recordIsNotNewable (by decide)

/-- Helper for C3: when the `filter_modify` cursor pass succeeds, it is a
pointwise rewrite: same number of entries, each key unaltered, matching
entries replaced by the stabilized serialization of the mutated record,
non-matching entries byte-identical. -/
theorem scanFilterModify_ok_spec {Item Key : Type} (sig : TableSig Item Key)
    (p : Item → Bool) (m : Item → Item) (d : Db)
    (h : (Table.scanFilterModify sig p m d).1 = .ok ()) :
    (Table.scanFilterModify sig p m d).2.length = d.length ∧
    ∀ i, i < d.length →
      ∃ k v v', d[i]? = some (k, v) ∧
        (Table.scanFilterModify sig p m d).2[i]? = some (k, v') ∧
        ∃ r, sig.fromBytes v = .ok r ∧
          ((p r = true ∧ sig.toBytes (sig.stabilize (m r)) = .ok v') ∨
           (p r = false ∧ v' = v)) := by
  induction d with
  | nil =>
    refine ⟨rfl, ?_⟩
    intro i hi
    simp at hi
  | cons e rest ih =>
    obtain ⟨kb, vb⟩ := e
    cases hf : sig.fromBytes vb with
    | error err => simp [Table.scanFilterModify, hf] at h
    | ok r =>
      by_cases hp : p r
      · cases hv : sig.toBytes (sig.stabilize (m r)) with
        | error err => simp [Table.scanFilterModify, hf, hp, hv] at h
        | ok v2 =>
          have hnext : (Table.scanFilterModify sig p m rest).1 = .ok () := by
            simpa [Table.scanFilterModify, hf, hp, hv] using h
          obtain ⟨hlen, hpt⟩ := ih hnext
          have hscan : (Table.scanFilterModify sig p m ((kb, vb) :: rest)).2
              = (kb, v2) :: (Table.scanFilterModify sig p m rest).2 := by
            simp [Table.scanFilterModify, hf, hp, hv]
          refine ⟨by simp [hscan, hlen], ?_⟩
          intro i hi
          cases i with
          | zero =>
            exact ⟨kb, vb, v2, by simp, by simp [hscan], r, hf, Or.inl ⟨hp, hv⟩⟩
          | succ j =>
            obtain ⟨k, v, v', h1, h2, r', h3, h4⟩ :=
              hpt j (by simpa using hi)
            exact ⟨k, v, v', by simpa using h1, by simp [hscan]; exact h2,
              r', h3, h4⟩
      · have hnext : (Table.scanFilterModify sig p m rest).1 = .ok () := by
          simpa [Table.scanFilterModify, hf, hp] using h
        obtain ⟨hlen, hpt⟩ := ih hnext
        have hscan : (Table.scanFilterModify sig p m ((kb, vb) :: rest)).2
            = (kb, vb) :: (Table.scanFilterModify sig p m rest).2 := by
          simp [Table.scanFilterModify, hf, hp]
        refine ⟨by simp [hscan, hlen], ?_⟩
        intro i hi
        cases i with
        | zero =>
          refine ⟨kb, vb, vb, by simp, by simp [hscan], r, hf, Or.inr ⟨?_, rfl⟩⟩
          simpa using hp
        | succ j =>
          obtain ⟨k, v, v', h1, h2, r', h3, h4⟩ :=
            hpt j (by simpa using hi)
          exact ⟨k, v, v', by simpa using h1, by simp [hscan]; exact h2,
            r', h3, h4⟩

/-- C3: a successful `filter_modify` over a table of N entries leaves
exactly N entries: at each position the key is unaltered; an entry whose
record satisfies the predicate is replaced by the stabilized serialization
of the mutated record; every other entry is byte-identical to before.
(The pass is a single forward recursion over the entries:
`Table.scanFilterModify`.) -/
theorem filter_modify_pointwise_rewrite {Item Key : Type}
    (sig : TableSig Item Key) (p : Item → Bool) (m : Item → Item)
    (store : Db) (h : (Table.filter_modify sig p m none store).1 = .ok ()) :
    (Table.filter_modify sig p m none store).2.2.length = store.length ∧
    ∀ i, i < store.length →
      ∃ k v v', store[i]? = some (k, v) ∧
        (Table.filter_modify sig p m none store).2.2[i]? = some (k, v') ∧
        ∃ r, sig.fromBytes v = .ok r ∧
          ((p r = true ∧ sig.toBytes (sig.stabilize (m r)) = .ok v') ∨
           (p r = false ∧ v' = v)) :=
  scanFilterModify_ok_spec sig p m store h

/-- Witness for C3 on a concrete two-entry table whose predicate accepts
exactly the first entry. -/
theorem filter_modify_pointwise_rewrite_witness :
    (Table.filter_modify natSig (fun r => decide (r < 6)) (fun r => r + 10)
        none [([0], [5]), ([1], [7])]).2.2.length
      = ([([0], [5]), ([1], [7])] : Db).length :=
  (filter_modify_pointwise_rewrite natSig (fun r => decide (r < 6))
    (fun r => r + 10) [([0], [5]), ([1], [7])] (by decide)).1

/-- C4: `create_record_if_missing` is idempotent.  In owned-transaction
mode, a second call with the same key returns the same result and leaves
the same table state as the first call alone; and when the key is already
present, the call is a no-op that writes nothing (the table state is
returned unchanged).  This holds for every signature, even a non-newable
or failing one. -/
theorem create_record_if_missing_idempotent {Item Key : Type}
    (sig : TableSig Item Key) (k : Key) (store : Db) :
    (Table.create_record_if_missing sig k none
        ((Table.create_record_if_missing sig k none store).2.2)
      = ((Table.create_record_if_missing sig k none store).1, none,
         (Table.create_record_if_missing sig k none store).2.2))
  ∧ (∀ kb v, sig.keyToBytes k = .ok kb → dbGet store kb = some v →
      (Table.create_record_if_missing sig k none store).2.2 = store) := by
  cases hn : sig.newable with
  | false =>
    constructor
    · simp [Table.create_record_if_missing, hn]
    · intro kb v hk hg
      simp [Table.create_record_if_missing, hn]
  | true =>
    cases hk : sig.keyToBytes k with
    | error e =>
      constructor
      · simp [Table.create_record_if_missing, hn, hk]
      · intro kb v hk' hg
        simp [hk] at hk'
    | ok kb =>
      cases hg : dbGet store kb with
      | some v =>
        have h1 : Table.create_record_if_missing sig k none store
            = (.ok (), none, store) := by
          simp [Table.create_record_if_missing, hn, hk, hg, runOp]
        constructor
        · rw [h1]
          simp [Table.create_record_if_missing, hn, hk, hg, runOp]
        · intro kb' v' hk' hg'
          rw [h1]
      | none =>
        cases hv : sig.toBytes (sig.stabilize (sig.new k)) with
        | error e =>
          have h1 : Table.create_record_if_missing sig k none store
              = (.error e, none, store) := by
            simp [Table.create_record_if_missing, hn, hk, hg, hv, runOp]
          constructor
          · rw [h1]
            simp [Table.create_record_if_missing, hn, hk, hg, hv, runOp]
          · intro kb' v' hk' hg'
            rw [h1]
        | ok vb =>
          have h1 : Table.create_record_if_missing sig k none store
              = (.ok (), none, dbPut store kb vb) := by
            simp [Table.create_record_if_missing, hn, hk, hg, hv, runOp]
          constructor
          · rw [h1]
            simp [Table.create_record_if_missing, hn, hk, runOp,
              dbGet_dbPut_self]
          · intro kb' v' hk' hg'
            obtain rfl := Except.ok.inj hk'
            simp [hg] at hg'

/-- Witness for C4: on a table where key `0` is already present, the call
writes nothing. -/
theorem create_record_if_missing_idempotent_witness :
    (Table.create_record_if_missing natSig 0 none [([0], [9])]).2.2
      = [([0], [9])] :=
  (create_record_if_missing_idempotent natSig 0 [([0], [9])]).2 [0] [9]
    (by decide) (by decide)

/-- C5: on a newable table, `modify` with an absent key constructs the
default record from the key, applies the mutation, stabilizes, and
persists it: the table gains exactly one entry, stored under the
serialized key, whose value is the stabilized serialization of the
mutated default; and after any successful `modify` call a record exists
for the key. -/
theorem modify_absent_creates_default {Item Key : Type}
    (sig : TableSig Item Key) (k : Key) (m : Item → Item) (store : Db)
    (kb vb : Bytes)
    (hn : sig.newable = true)
    (hk : sig.keyToBytes k = .ok kb)
    (hg : dbGet store kb = none)
    (hv : sig.toBytes (sig.stabilize (m (sig.new k))) = .ok vb) :
    (Table.modify sig k m none store = (.ok (), none, dbPut store kb vb)
  ∧ dbGet (Table.modify sig k m none store).2.2 kb = some vb
  ∧ (Table.modify sig k m none store).2.2.length = store.length + 1)
  ∧ (∀ store₂ : Db, (Table.modify sig k m none store₂).1 = .ok () →
      ∃ v, dbGet (Table.modify sig k m none store₂).2.2 kb = some v) := by
  have h1 : Table.modify sig k m none store = (.ok (), none, dbPut store kb vb) := by
    simp [Table.modify, hn, hk, hg, hv, runOp]
  refine ⟨⟨h1, ?_, ?_⟩, ?_⟩
  · rw [h1]
    exact dbGet_dbPut_self store kb vb
  · rw [h1]
    exact dbPut_length_of_absent store kb vb hg
  · intro store₂ hok
    cases hg₂ : dbGet store₂ kb with
    | none =>
      have h₂ : Table.modify sig k m none store₂
          = (.ok (), none, dbPut store₂ kb vb) := by
        simp [Table.modify, hn, hk, hg₂, hv, runOp]
      exact ⟨vb, by rw [h₂]; exact dbGet_dbPut_self store₂ kb vb⟩
    | some v0 =>
      cases hf : sig.fromBytes v0 with
      | error e =>
        exfalso
        simp [Table.modify, hn, hk, hg₂, hf, runOp] at hok
      | ok r =>
        cases hv2 : sig.toBytes (sig.stabilize (m r)) with
        | error e =>
          exfalso
          simp [Table.modify, hn, hk, hg₂, hf, hv2, runOp] at hok
        | ok v =>
          have h₂ : Table.modify sig k m none store₂
              = (.ok (), none, dbPut store₂ kb v) := by
            simp [Table.modify, hn, hk, hg₂, hf, hv2, runOp]
          exact ⟨v, by rw [h₂]; exact dbGet_dbPut_self store₂ kb v⟩

/-- Witness for C5: `modify` of key 4 with mutation `+1` on the empty
table creates the single entry `([4], [5])`. -/
theorem modify_absent_creates_default_witness :
    Table.modify natSig 4 (fun r => r + 1) none []
      = (.ok (), none, [([4], [5])]) :=
  (modify_absent_creates_default natSig 4 (fun r => r + 1) [] [4] [5]
    (by decide) (by decide) (by decide) (by decide)).1.1

/-- Helper for C6: when every stored value deserializes, the scan loop of
`filter_records` returns exactly the deserialized records accepted by the
predicate, in the order the entries appear in the database. -/
theorem scanFilter_total {Item Key : Type} (sig : TableSig Item Key)
    (p : Item → Bool) (t : Db)
    (h : ∀ e ∈ t, ∃ r, sig.fromBytes e.2 = .ok r) :
    Table.scanFilter sig p t
      = .ok ((t.filterMap (fun e => (sig.fromBytes e.2).toOption)).filter p) := by
  induction t with
  | nil => simp [Table.scanFilter]
  | cons e rest ih =>
    obtain ⟨r, hr⟩ := h e (by simp)
    have ih' := ih (fun e' he' => h e' (by simp [he']))
    obtain ⟨kb, vb⟩ := e
    simp only at hr
    by_cases hp : p r <;>
      simp [Table.scanFilter, hr, ih', Except.toOption, hp]

/-- Helper for C6: if any stored value fails to deserialize, the scan loop
of `filter_records` returns an error (no partial result). -/
theorem scanFilter_error {Item Key : Type} (sig : TableSig Item Key)
    (p : Item → Bool) (t : Db)
    (h : ∃ e ∈ t, (sig.fromBytes e.2).isOk = false) :
    ∃ err, Table.scanFilter sig p t = .error err := by
  induction t with
  | nil => simp at h
  | cons e rest ih =>
    obtain ⟨kb, vb⟩ := e
    cases hf : sig.fromBytes vb with
    | error err => exact ⟨err, by simp [Table.scanFilter, hf]⟩
    | ok r =>
      have h' : ∃ e ∈ rest, (sig.fromBytes e.2).isOk = false := by
        obtain ⟨e', he', hfe⟩ := h
        rcases List.mem_cons.mp he' with rfl | hmem
        · simp only at hfe
          rw [hf] at hfe
          simp [Except.isOk, Except.toBool] at hfe
        · exact ⟨e', hmem, hfe⟩
      obtain ⟨err, herr⟩ := ih h'
      cases hs : Table.scanFilter sig p rest with
      | error e2 => exact ⟨e2, by simp [Table.scanFilter, hf, hs]⟩
      | ok out => rw [hs] at herr; cases herr

/-- C6: `filter_records` is a full linear scan in store (key) order: when
every entry deserializes, it returns exactly the records accepted by the
predicate, in the order the entries sit in the database (the store's
native key ordering); and if any entry fails to deserialize, the whole
call returns an error with no partial result. -/
theorem filter_records_scan_spec {Item Key : Type} (sig : TableSig Item Key)
    (p : Item → Bool) (t store : Db) :
    ((∀ e ∈ t, ∃ r, sig.fromBytes e.2 = .ok r) →
      Table.filter_records sig p (some t) store
        = .ok ((t.filterMap (fun e => (sig.fromBytes e.2).toOption)).filter p))
  ∧ ((∃ e ∈ t, (sig.fromBytes e.2).isOk = false) →
      ∃ err, Table.filter_records sig p (some t) store = .error err) :=
  ⟨fun h => scanFilter_total sig p t h, fun h => scanFilter_error sig p t h⟩

/-- Witness for C6: on a two-entry table, the predicate `< 6` selects
exactly the first record, in store order. -/
theorem filter_records_scan_spec_witness :
    Table.filter_records natSig (fun r => decide (r < 6))
      (some [([0], [5]), ([1], [7])]) [] = .ok [5] :=
  (filter_records_scan_spec natSig (fun r => decide (r < 6))
      [([0], [5]), ([1], [7])] []).1
    (by
      intro e he
      simp only [List.mem_cons, List.not_mem_nil, or_false] at he
      rcases he with rfl | rfl
      · exact ⟨5, rfl⟩
      · exact ⟨7, rfl⟩)

/-- C7: `modify_if_exists` on an absent key returns `false` and leaves
everything exactly as it was — in supplied-transaction mode the
transaction view and the committed store are returned unchanged, and in
owned-transaction mode the committed store is returned unchanged — so no
record is ever fabricated. -/
theorem modify_if_exists_absent_noop {Item Key : Type}
    (sig : TableSig Item Key) (k : Key) (m : Item → Item)
    (t store : Db) (kb : Bytes)
    (hk : sig.keyToBytes k = .ok kb) :
    (dbGet t kb = none →
      Table.modify_if_exists sig k m (some t) store = (.ok false, some t, store))
  ∧ (dbGet store kb = none →
      Table.modify_if_exists sig k m none store = (.ok false, none, store)) := by
  constructor
  · intro hg
    simp [Table.modify_if_exists, hk, hg, runOp]
  · intro hg
    simp [Table.modify_if_exists, hk, hg, runOp]

/-- Witness for C7: key 3 is absent from the empty table. -/
theorem modify_if_exists_absent_noop_witness :
    Table.modify_if_exists natSig 3 (fun r => r + 1) none []
      = (.ok false, none, []) :=
  (modify_if_exists_absent_noop natSig 3 (fun r => r + 1) [] [] [3]
    (by decide)).2 (by decide)

/-- C8: `read_record` returns `some` of the deserialized record when the
key is present, `none` when absent; and when the stored bytes of a
present key fail to deserialize it returns that error — never `none`. -/
theorem read_record_semantics {Item Key : Type} (sig : TableSig Item Key)
    (k : Key) (t store : Db) (kb : Bytes)
    (hk : sig.keyToBytes k = .ok kb) :
    (dbGet t kb = none → Table.read_record sig k (some t) store = .ok none)
  ∧ (∀ v r, dbGet t kb = some v → sig.fromBytes v = .ok r →
      Table.read_record sig k (some t) store = .ok (some r))
  ∧ (∀ v e, dbGet t kb = some v → sig.fromBytes v = .error e →
      Table.read_record sig k (some t) store = .error e) := by
  refine ⟨?_, ?_, ?_⟩
  · intro hg
    simp [Table.read_record, hk, hg, runRead]
  · intro v r hg hf
    simp [Table.read_record, hk, hg, hf, runRead]
  · intro v e hg hf
    simp [Table.read_record, hk, hg, hf, runRead]

/-- Witness for C8: reading the present key 2 returns its record. -/
theorem read_record_semantics_witness :
    Table.read_record natSig 2 (some [([2], [9])]) [] = .ok (some 9) :=
  (read_record_semantics natSig 2 [([2], [9])] [] [2] (by decide)).2.1
    [9] 9 (by decide) (by decide)

/-- C9: on a non-newable table, `create_record_if_missing`,
`read_or_create_record` and `modify` fail with the not-newable error
unconditionally — for every transaction argument and every store, even
one where the key is already present — and both the transaction view and
the committed store are returned unchanged, because the newable check
runs before any store access. -/
theorem non_newable_ops_fail {Item Key : Type} (sig : TableSig Item Key)
    (hn : sig.newable = false) (k : Key) (m : Item → Item)
    (wtxn : Option Db) (store : Db) :
    Table.create_record_if_missing sig k wtxn store
      = (.error .recordIsNotNewable, wtxn, store)
  ∧ Table.read_or_create_record sig k wtxn store
      = (.error .recordIsNotNewable, wtxn, store)
  ∧ Table.modify sig k m wtxn store
      = (.error .recordIsNotNewable, wtxn, store) := by
  refine ⟨?_, ?_, ?_⟩
  · simp [Table.create_record_if_missing, hn]
  · simp [Table.read_or_create_record, hn]
  · simp [Table.modify, hn]

/-- Witness for C9: on a non-newable table whose key 0 is present, all
three operations still fail with the not-newable error and change
nothing. -/
theorem non_newable_ops_fail_witness :
    Table.modify natSigNoNew 0 (fun r => r + 1) none [([0], [9])]
      = (.error .recordIsNotNewable, none, [([0], [9])]) :=
  (non_newable_ops_fail natSigNoNew (by decide) 0 (fun r => r + 1) none
    [([0], [9])]).2.2

/-- C10: `modify_if_exists` never requires the newable capability:
its behavior is identical whatever the `newable` flag is; on a present
key it deserializes, mutates, stabilizes and rewrites the record under
the same key and returns `true`, with no newable hypothesis; and it
never produces the not-newable error itself (if none of the signature's
codec functions return that error, neither does the operation, on any
input). -/
theorem modify_if_exists_ignores_newable {Item Key : Type}
    (sig : TableSig Item Key) (k : Key) (m : Item → Item) :
    (∀ (b : Bool) (wtxn : Option Db) (store : Db),
      Table.modify_if_exists { sig with newable := b } k m wtxn store
        = Table.modify_if_exists sig k m wtxn store)
  ∧ (∀ (t store : Db) (kb v : Bytes) (r : Item) (v' : Bytes),
      sig.keyToBytes k = .ok kb → dbGet t kb = some v →
      sig.fromBytes v = .ok r → sig.toBytes (sig.stabilize (m r)) = .ok v' →
      Table.modify_if_exists sig k m (some t) store
        = (.ok true, some (dbPut t kb v'), store))
  ∧ ((∀ k', sig.keyToBytes k' ≠ .error .recordIsNotNewable) →
     (∀ bs, sig.fromBytes bs ≠ .error .recordIsNotNewable) →
     (∀ r, sig.toBytes r ≠ .error .recordIsNotNewable) →
     ∀ (wtxn : Option Db) (store : Db),
       (Table.modify_if_exists sig k m wtxn store).1
         ≠ .error .recordIsNotNewable) := by
  refine ⟨?_, ?_, ?_⟩
  · intro b wtxn store
    rfl
  · intro t store kb v r v' hk hg hf hv
    simp [Table.modify_if_exists, hk, hg, hf, hv, runOp]
  · intro h1 h2 h3 wtxn store
    have hsome : ∀ t : Db,
        (Table.modify_if_exists sig k m (some t) store).1
          ≠ .error .recordIsNotNewable := by
      intro t
      cases hk : sig.keyToBytes k with
      | error e =>
        have hres : (Table.modify_if_exists sig k m (some t) store).1
            = .error e := by
          simp [Table.modify_if_exists, hk, runOp]
        rw [hres]
        intro hcon
        obtain rfl := Except.error.inj hcon
        exact h1 k hk
      | ok kb =>
        cases hg : dbGet t kb with
        | none =>
          have hres : (Table.modify_if_exists sig k m (some t) store).1
              = .ok false := by
            simp [Table.modify_if_exists, hk, hg, runOp]
          rw [hres]
          intro hcon
          cases hcon
        | some v =>
          cases hf : sig.fromBytes v with
          | error e =>
            have hres : (Table.modify_if_exists sig k m (some t) store).1
                = .error e := by
              simp [Table.modify_if_exists, hk, hg, hf, runOp]
            rw [hres]
            intro hcon
            obtain rfl := Except.error.inj hcon
            exact h2 v hf
          | ok r =>
            cases hv : sig.toBytes (sig.stabilize (m r)) with
            | error e =>
              have hres : (Table.modify_if_exists sig k m (some t) store).1
                  = .error e := by
                simp [Table.modify_if_exists, hk, hg, hf, hv, runOp]
              rw [hres]
              intro hcon
              obtain rfl := Except.error.inj hcon
              exact h3 (sig.stabilize (m r)) hv
            | ok v' =>
              have hres : (Table.modify_if_exists sig k m (some t) store).1
                  = .ok true := by
                simp [Table.modify_if_exists, hk, hg, hf, hv, runOp]
              rw [hres]
              intro hcon
              cases hcon
    cases wtxn with
    | some t => exact hsome t
    | none => exact hsome store

/-- Witness for C10: on the non-newable table, `modify_if_exists` of the
present key 2 rewrites the record and returns `true`. -/
theorem modify_if_exists_ignores_newable_witness :
    Table.modify_if_exists natSigNoNew 2 (fun r => r + 1)
        (some [([2], [9])]) []
      = (.ok true, some [([2], [10])], []) :=
  (modify_if_exists_ignores_newable natSigNoNew 2 (fun r => r + 1)).2.1
    [([2], [9])] [] [2] [9] 9 [10] (by decide) (by decide) (by decide)
    (by decide)

end Gossip
